import Mathlib

/-!
# Verification of the k3s-envtest client-config patching, filtering and polling subsystems

This development gives a shallow embedding, in Lean 4, of the pure logic of the
k3s-envtest repository:

* `internal/resources/webhook.go` — webhook client-config patching and URL extraction,
* `internal/resources/patch.go` / `crd.go` — CRD conversion patching and the
  convertibility filter,
* `internal/jq` — the typed query/transform wrappers around the gojq engine,
* `internal/cert` — certificate issuance control flow,
* `internal/webhook/client.go` and `pkg/k3senv/k3senv_support.go` — health-check
  classification and the sequential readiness-polling loop.

External effects (the filesystem, the TLS library, the HTTP transport and the gojq
evaluator) are represented by explicit outcome parameters; the control flow around
them is translated from the Go source.  Machine integers do not occur in the
modelled code paths; byte slices are modelled as `List Nat` and Go strings as
`String`.
-/

/-! ## A model of Go `net/url.Parse`, restricted to the path component

Only the behaviour relevant to the repository is modelled, following the control
flow of Go's `net/url` parser: fragment and query stripping, scheme detection
(`getScheme`), the opaque / rootless / authority cases, and the error cases
"missing protocol scheme", "first path segment in URL cannot contain colon" and
"invalid control character in URL".  Percent-escape processing and host/port
validation are not modelled; none of the inputs appearing in the repository or in
the witnesses below use them. -/

/-- Equality test for `Except` results, used to settle concrete instances by
`decide`. -/
instance exceptDecidableEq {ε α : Type} [DecidableEq ε] [DecidableEq α] :
    DecidableEq (Except ε α) := fun x y =>
  match x, y with
  | .ok a, .ok b =>
    if h : a = b then .isTrue (by rw [h])
    else .isFalse (by intro hc; cases hc; exact h rfl)
  | .error a, .error b =>
    if h : a = b then .isTrue (by rw [h])
    else .isFalse (by intro hc; cases hc; exact h rfl)
  | .ok _, .error _ => .isFalse (by intro hc; cases hc)
  | .error _, .ok _ => .isFalse (by intro hc; cases hc)

/-- Result of Go's `getScheme`: either a (possibly empty) scheme together with the
remainder of the URL, or the "missing protocol scheme" error. -/
inductive SchemeSplit where
  | parsed (scheme : String) (rest : List Char)
  | malformed
deriving DecidableEq

def isSchemeAlpha (c : Char) : Bool :=
  (('a' ≤ c) && (c ≤ 'z')) || (('A' ≤ c) && (c ≤ 'Z'))

def isSchemeDigit (c : Char) : Bool :=
  ('0' ≤ c) && (c ≤ '9')

/-- Character scan of Go's `getScheme`: `orig` is the full input, the `List Char`
argument the unscanned remainder and `i` the current index. -/
def getSchemeAux (orig : List Char) : List Char → Nat → SchemeSplit
  | [], _ => .parsed "" orig
  | c :: cs, i =>
    if isSchemeAlpha c then getSchemeAux orig cs (i + 1)
    else if isSchemeDigit c || c == '+' || c == '-' || c == '.' then
      if i = 0 then .parsed "" orig else getSchemeAux orig cs (i + 1)
    else if c == ':' then
      if i = 0 then .malformed
      else .parsed (String.mk (orig.take i)) (orig.drop (i + 1))
    else .parsed "" orig

def getScheme (cs : List Char) : SchemeSplit :=
  getSchemeAux cs cs 0

/-- The characters strictly before the first occurrence of `sep`
(all of them when `sep` does not occur): Go's `strings.Cut` first component for
a single-character separator. -/
def cutBeforeChar : List Char → Char → List Char
  | [], _ => []
  | c :: cs, sep => if c = sep then [] else c :: cutBeforeChar cs sep

/-- After the `//` of an authority, the path starts at the first `/`
(empty when there is none). -/
def pathAfterAuthority : List Char → String
  | [] => ""
  | c :: cs => if c = '/' then String.mk (c :: cs) else pathAfterAuthority cs

/-- The components of a parsed URL that the repository reads. -/
structure GoURL where
  scheme : String
  path : String
deriving DecidableEq

/-- Model of Go `net/url.Parse`, returning `none` exactly when the modelled
parser reports an error. -/
def urlParse (rawURL : String) : Option GoURL :=
  if rawURL.data.any (fun c => c.toNat < 32 || c.toNat == 127) then none
  else
    match getScheme (cutBeforeChar rawURL.data '#') with
    | .malformed => none
    | .parsed scheme rest0 =>
      let rest := cutBeforeChar rest0 '?'
      match rest with
      | '/' :: '/' :: '/' :: _ =>
        if scheme ≠ "" then some ⟨scheme, pathAfterAuthority (rest.drop 2)⟩
        else some ⟨scheme, String.mk rest⟩
      | '/' :: '/' :: tail => some ⟨scheme, pathAfterAuthority tail⟩
      | '/' :: _ => some ⟨scheme, String.mk rest⟩
      | _ =>
        if scheme ≠ "" then some ⟨scheme, ""⟩
        else if (cutBeforeChar rest '/').contains ':' then none
        else some ⟨scheme, String.mk rest⟩

/-! ## Webhook configurations (`internal/resources/webhook.go`)

`admissionregistration/v1` mutating and validating webhook configurations share
the fields the repository touches, so a single structure models the webhook list
of both Go types. `CABundle []byte` is modelled as a `String` (the Go code only
ever stores `[]byte(caBundle)` for a string `caBundle`). -/

structure ServiceReference where
  serviceNamespace : String
  name : String
  path : Option String
deriving DecidableEq

structure WebhookClientConfig where
  url : Option String
  caBundle : String
  service : Option ServiceReference
deriving DecidableEq

structure WebhookEntry where
  name : String
  clientConfig : WebhookClientConfig
deriving DecidableEq

structure WebhookConfiguration where
  name : String
  webhooks : List WebhookEntry
deriving DecidableEq

/-- The `else if config.URL != nil` arm of `patchClientConfig`: the path of a
parseable prior URL, else the default `"/"`. -/
def patchPathFromURL : Option String → String
  | some s =>
    match urlParse s with
    | some g => g.path
    | none => "/"
  | none => "/"

/-- The `path` computed by `patchClientConfig` (webhook.go lines 67-74). -/
def patchPath (config : WebhookClientConfig) : String :=
  match config.service with
  | some svc =>
    match svc.path with
    | some p => p
    | none => patchPathFromURL config.url
  | none => patchPathFromURL config.url

/-- `patchClientConfig` (webhook.go lines 62-79): sets the URL to
`baseURL + path`, stores the CA bundle and deletes the service reference. -/
def patchClientConfig (config : WebhookClientConfig) (baseURL caBundle : String) :
    WebhookClientConfig :=
  { url := some (baseURL ++ patchPath config), caBundle := caBundle, service := none }

/-- `PatchMutatingWebhookConfiguration` (webhook.go lines 88-96): patches every
entry's client config in place. -/
def PatchMutatingWebhookConfiguration (w : WebhookConfiguration)
    (baseURL caBundle : String) : WebhookConfiguration :=
  { w with
    webhooks := w.webhooks.map
      (fun e => { e with clientConfig := patchClientConfig e.clientConfig baseURL caBundle }) }

/-- `PatchValidatingWebhookConfiguration` (webhook.go lines 105-113): identical
per-entry patching for validating configurations. -/
def PatchValidatingWebhookConfiguration (w : WebhookConfiguration)
    (baseURL caBundle : String) : WebhookConfiguration :=
  { w with
    webhooks := w.webhooks.map
      (fun e => { e with clientConfig := patchClientConfig e.clientConfig baseURL caBundle }) }

/-- Refinement counterpart for claim C1, written from the spec's words: "the
effective path is: prior service-reference path, else the path component of an
existing URL, else `/`". -/
def specEffectivePath (cc : WebhookClientConfig) : String :=
  match cc.service.bind ServiceReference.path with
  | some p => p
  | none =>
    match cc.url.bind (fun u => (urlParse u).map GoURL.path) with
    | some p => p
    | none => "/"

/-- `urlFromClientConfig` (webhook.go lines 15-26): empty result for a nil/empty
URL, an error for a malformed URL, else the URL itself. -/
def urlFromClientConfig (config : WebhookClientConfig) : Except String String :=
  let urlStr := config.url.getD ""
  if urlStr = "" then .ok ""
  else
    match urlParse urlStr with
    | none => .error "failed to parse URL"
    | some _ => .ok urlStr

/-- The `client.Object` argument of `ExtractWebhookURLs`: one of the two
supported configuration types, or some other type (identified by its Go type
name, as printed by `%T`). -/
inductive WebhookObject where
  | mutating (cfg : WebhookConfiguration)
  | validating (cfg : WebhookConfiguration)
  | other (typeName : String)
deriving DecidableEq

/-- The per-entry loop shared by both arms of `ExtractWebhookURLs`
(webhook.go lines 35-43 and 45-53): first malformed URL aborts with a wrapped
error naming the kind and the owning configuration, empty URLs are skipped,
non-empty ones are appended in entry order. -/
def extractURLsFromList (kindLabel cfgName : String) :
    List WebhookEntry → Except String (List String)
  | [] => .ok []
  | e :: rest =>
    match urlFromClientConfig e.clientConfig with
    | .error msg =>
      .error ("invalid URL in " ++ kindLabel ++ " webhook " ++ cfgName ++ ": " ++ msg)
    | .ok urlStr =>
      match extractURLsFromList kindLabel cfgName rest with
      | .error msg => .error msg
      | .ok urls => .ok (if urlStr = "" then urls else urlStr :: urls)

/-- `ExtractWebhookURLs` (webhook.go lines 30-59). -/
def ExtractWebhookURLs : WebhookObject → Except String (List String)
  | .mutating cfg => extractURLsFromList "mutating" cfg.name cfg.webhooks
  | .validating cfg => extractURLsFromList "validating" cfg.name cfg.webhooks
  | .other t => .error ("unsupported webhook configuration type: " ++ t)

/-! ## CRDs: conversion patching and the convertibility filter
(`internal/resources/patch.go`, `crd.go` and its typed sibling) -/

structure CRDWebhookClientConfig where
  url : Option String
  caBundle : String
deriving DecidableEq

structure WebhookConversion where
  conversionReviewVersions : List String
  clientConfig : Option CRDWebhookClientConfig
deriving DecidableEq

structure CustomResourceConversion where
  strategy : String
  webhook : Option WebhookConversion
deriving DecidableEq

structure CRDNames where
  kind : String
deriving DecidableEq

structure CRDSpec where
  group : String
  names : CRDNames
  conversion : Option CustomResourceConversion
deriving DecidableEq

structure CustomResourceDefinition where
  name : String
  spec : CRDSpec
deriving DecidableEq

/-- `apiextensionsv1.WebhookConverter`. -/
def WebhookConverter : String := "Webhook"

/-- `PatchCRDConversion` (patch.go lines 69-84): unconditionally replaces
`spec.conversion` with the webhook conversion block. -/
def PatchCRDConversion (crd : CustomResourceDefinition) (baseURL caBundle : String) :
    CustomResourceDefinition :=
  { crd with
    spec := { crd.spec with
      conversion := some
        { strategy := WebhookConverter
          webhook := some
            { conversionReviewVersions := ["v1", "v1beta1"]
              clientConfig := some
                { url := some (baseURL ++ "/convert")
                  caBundle := caBundle } } } } }

structure GroupKind where
  group : String
  kind : String
deriving DecidableEq

/-- `FilterConvertibleCRDs` (typed variant, and identically the unstructured
variant of crd.go lines 15-48): the set of convertible group/kinds resolved from
the scheme is taken as the `convertibles` parameter.  The first CRD with an
empty `spec.group` or `spec.names.kind` aborts with a field-specific error
naming the CRD; otherwise the CRDs whose group/kind is in the set are kept in
order. -/
def FilterConvertibleCRDs (convertibles : List GroupKind) :
    List CustomResourceDefinition → Except String (List CustomResourceDefinition)
  | [] => .ok []
  | crd :: rest =>
    if crd.spec.group = "" then
      .error ("CRD " ++ crd.name ++ " missing required field: spec.group")
    else if crd.spec.names.kind = "" then
      .error ("CRD " ++ crd.name ++ " missing required field: spec.names.kind")
    else
      match FilterConvertibleCRDs convertibles rest with
      | .error e => .error e
      | .ok tail =>
        .ok (if convertibles.contains ⟨crd.spec.group, crd.spec.names.kind⟩
             then crd :: tail else tail)

/-! ## The jq engine wrappers (`internal/jq`)

The gojq evaluator itself is an external library; what the repository defines is
the handling of the first value produced by `query.Run(obj.Object).Next()`.
That outcome is taken as an explicit parameter `JqOutcome`; dynamically typed Go
values are modelled by `GoVal` and the type parameter `T` of `Query[T]` by
`GoType`, with Go's `%vT` type names reproduced by `goTypeName`/`goValTypeName`. -/

/-- A dynamically typed value as produced by gojq (`interface` value in Go). -/
inductive GoVal where
  | nil
  | boolean (b : Bool)
  | number (n : Int)
  | str (s : String)
  | arr (xs : List GoVal)
  | obj (fields : List (String × GoVal))

/-- The type parameter `T` of `jq.Query[T]`, restricted to the instantiations the
repository uses. -/
inductive GoType where
  | tString
  | tBool
  | tNumber
  | tAny
deriving DecidableEq

/-- Go's `%T` rendering of the zero value of the type parameter. -/
def goTypeName : GoType → String
  | .tString => "string"
  | .tBool => "bool"
  | .tNumber => "float64"
  | .tAny => "<nil>"

/-- Go's `%T` rendering of a dynamic value. -/
def goValTypeName : GoVal → String
  | .nil => "<nil>"
  | .boolean _ => "bool"
  | .number _ => "float64"
  | .str _ => "string"
  | .arr _ => "[]interface \x7b\x7d"
  | .obj _ => "map[string]interface \x7b\x7d"

/-- The zero value `var zero T`. -/
def zeroOf : GoType → GoVal
  | .tString => .str ""
  | .tBool => .boolean false
  | .tNumber => .number 0
  | .tAny => .nil

/-- Go's type assertion `result.(T)` succeeds (for a non-nil `result`). -/
def matchesType : GoVal → GoType → Bool
  | _, .tAny => true
  | .str _, .tString => true
  | .boolean _, .tBool => true
  | .number _, .tNumber => true
  | _, _ => false

/-- The outcome of `gojq.Parse` followed by `query.Run(obj.Object).Next()`:
a parse error, an exhausted iterator (`ok == false`), a first value, or a first
value that is an `error`. -/
inductive JqOutcome where
  | parseError (msg : String)
  | noResult
  | result (v : GoVal)
  | runError (msg : String)

/-- `jq.Query[T]` (internal/jq, lines 49-80), as a function of the type
parameter and the engine outcome. -/
def Query (target : GoType) (run : JqOutcome) : Except String GoVal :=
  match run with
  | .parseError msg => .error ("failed to parse jq expression: " ++ msg)
  | .noResult => .ok (zeroOf target)
  | .runError msg => .error ("jq execution error: " ++ msg)
  | .result v =>
    match v with
    | .nil => .ok (zeroOf target)
    | _ =>
      if matchesType v target then .ok v
      else .error ("expected type " ++ goTypeName target ++ ", got " ++ goValTypeName v)

/-- `jq.Transform` (internal/jq, lines 12-39): the first component is the object
content after the call (Go mutates `obj` in place), the second the returned
error. -/
def Transform (objContent : GoVal) (run : JqOutcome) : GoVal × Option String :=
  match run with
  | .parseError msg => (objContent, some ("failed to parse jq expression: " ++ msg))
  | .noResult => (objContent, none)
  | .runError msg => (objContent, some ("jq execution error: " ++ msg))
  | .result v =>
    match v with
    | .nil => (objContent, none)
    | .obj fields => (.obj fields, none)
    | _ =>
      (objContent, some ("expected map[string]interface \x7b\x7d, got " ++ goValTypeName v))

/-! ## Certificate issuance (`internal/cert`, src/unnamed/part_005)

The filesystem and the `tlscert` library are external; their outcomes are the
`CertWorld` parameter and the calls the code makes are recorded as a trace of
`CertAction`s, so that sequencing ("no retry", "first failure aborts") is
visible in the result. -/

def CACertFileName : String := "cert-ca.pem"

def CertFileName : String := "cert-tls.pem"

def KeyFileName : String := "key-tls.pem"

/-- `filepath.Join` for the already-clean paths the code builds. -/
def filepathJoin (dir file : String) : String := dir ++ "/" ++ file

/-- `strings.Join(sans, ",")`. -/
def commaJoin : List String → String
  | [] => ""
  | [s] => s
  | s :: rest => s ++ "," ++ commaJoin rest

/-- The fields of `tlscert.Request` that `cert.New` fills in. -/
structure CertRequest where
  name : String
  host : String
  validFor : Nat
  isCA : Bool
  hasParent : Bool
  parentDir : String
deriving DecidableEq

/-- An external call made by `cert.New`. -/
inductive CertAction where
  | mkdirAll (path : String)
  | selfSignedFromRequest (req : CertRequest)
  | readFileAct (path : String)
deriving DecidableEq

/-- Outcomes of the external world: directory creation, the two certificate
generations, and the content of each file path. -/
structure CertWorld where
  mkdirError : Option String
  caCertOK : Bool
  serverCertOK : Bool
  fileContents : String → Except String (List Nat)

/-- `cert.Data`: the three PEM blobs, bytes as `List Nat`. -/
structure Data where
  caCert : List Nat
  serverCert : List Nat
  serverKey : List Nat
deriving DecidableEq

/-- The standard base64 alphabet. -/
def base64Alphabet : List Char :=
  "ABCDEFGHIJKLMNOPQRSTUVWXYZabcdefghijklmnopqrstuvwxyz0123456789+/".data

def b64Char (n : Nat) : Char := base64Alphabet.getD n '='

/-- `base64.StdEncoding.EncodeToString` on a byte sequence. -/
def base64Encode : List Nat → String
  | [] => ""
  | [a] => String.mk [b64Char (a / 4), b64Char (a % 4 * 16), '=', '=']
  | [a, b] => String.mk [b64Char (a / 4), b64Char (a % 4 * 16 + b / 16), b64Char (b % 16 * 4), '=']
  | a :: b :: c :: rest =>
    String.mk [b64Char (a / 4), b64Char (a % 4 * 16 + b / 16),
               b64Char (b % 16 * 4 + c / 64), b64Char (c % 64)]
      ++ base64Encode rest

/-- `(*Data).CABundle` (part_005 lines 37-39). -/
def CABundle (d : Data) : String := base64Encode d.caCert

/-- `readFile(path, name)` (part_005 lines 90-101). -/
def readFilePEM (w : CertWorld) (path fname : String) : Except String (List Nat) :=
  match w.fileContents (filepathJoin path fname) with
  | .error e => .error ("failed to read file " ++ filepathJoin path fname ++ ": " ++ e)
  | .ok d => .ok d

/-- `cert.New` (part_005 lines 43-88): directory creation, the two generation
requests, the nil check, and the three read-backs, each performed once, aborting
at the first failure. -/
def certNew (w : CertWorld) (path : String) (validity : Nat) (sans : List String) :
    List CertAction × Except String Data :=
  match w.mkdirError with
  | some e => ([.mkdirAll path], .error ("failed to create cert directory: " ++ e))
  | none =>
    let caReq : CertRequest := ⟨"ca", "k3senv-ca", validity, true, false, path⟩
    let serverReq : CertRequest := ⟨"tls", commaJoin sans, validity, false, true, path⟩
    let acts := [CertAction.mkdirAll path,
                 CertAction.selfSignedFromRequest caReq,
                 CertAction.selfSignedFromRequest serverReq]
    if !w.caCertOK || !w.serverCertOK then
      (acts, .error "failed to generate certificates")
    else
      match readFilePEM w path CACertFileName with
      | .error e =>
        (acts ++ [.readFileAct (filepathJoin path CACertFileName)],
         .error ("failed to read CA cert: " ++ e))
      | .ok caPEM =>
        match readFilePEM w path CertFileName with
        | .error e =>
          (acts ++ [.readFileAct (filepathJoin path CACertFileName),
                    .readFileAct (filepathJoin path CertFileName)],
           .error ("failed to read server cert: " ++ e))
        | .ok certPEM =>
          match readFilePEM w path KeyFileName with
          | .error e =>
            (acts ++ [.readFileAct (filepathJoin path CACertFileName),
                      .readFileAct (filepathJoin path CertFileName),
                      .readFileAct (filepathJoin path KeyFileName)],
             .error ("failed to read server key: " ++ e))
          | .ok keyPEM =>
            (acts ++ [.readFileAct (filepathJoin path CACertFileName),
                      .readFileAct (filepathJoin path CertFileName),
                      .readFileAct (filepathJoin path KeyFileName)],
             .ok ⟨caPEM, certPEM, keyPEM⟩)

/-! ## Health-check classification and readiness polling
(`internal/webhook/client.go`, `pkg/k3senv/k3senv_support.go`)

An individual HTTPS POST of the synthetic admission review either fails in
transport or yields a response with a status code and a body that does or does
not unmarshal as an `AdmissionReview`. -/

inductive CallAttempt where
  | transportError
  | response (statusCode : Nat) (bodyIsAdmissionReview : Bool)
deriving DecidableEq

/-- `(*Client).Call` succeeds (client.go lines 113-175): it returns an error on
transport failure, on a status `>= 500`, and when the response body fails to
unmarshal as an `AdmissionReview`. -/
def callSucceeds : CallAttempt → Bool
  | .transportError => false
  | .response status bodyOK => decide (status < 500) && bodyOK

/-- `checkWebhookEndpoint` succeeds (k3senv_support.go lines 85-135): only the
status code matters, any response below 500 is healthy. -/
def checkWebhookEndpointHealthy : CallAttempt → Bool
  | .transportError => false
  | .response status _ => decide (status < 500)

/-- `wait.PollUntilContextTimeout` with `immediate = true`, abstracted to a
budget of attempts derived from the ready timeout and the poll interval:
attempts are issued at `k, k+1, …` until the first healthy one or until the
budget is exhausted; the trace of issued attempts and the success flag are
returned. -/
def pollAttempts (healthy : Nat → Bool) : Nat → Nat → List Nat × Bool
  | _, 0 => ([], false)
  | k, fuel + 1 =>
    if healthy k then ([k], true)
    else
      let r := pollAttempts healthy (k + 1) fuel
      (k :: r.1, r.2)

/-- The poll condition of `WaitForEndpoints` for an endpoint whose URL parsed
to `g` (client.go lines 210-222): a `Call` to the URL's path, defaulted to `/`,
succeeding. -/
def endpointHealthy (respond : String → Nat → CallAttempt) (g : GoURL) (k : Nat) : Bool :=
  callSucceeds (respond (if g.path = "" then "/" else g.path) k)

/-- The loop body of `WaitForEndpoints` (client.go lines 204-229) starting at
endpoint index `i`: parse the URL, default the path to `/`, poll that single
endpoint with a fresh budget, and only on success move to the next URL.  The
trace tags every issued health-check call with `(endpoint index, attempt
number)`. -/
def waitForEndpointsAux (budget : Nat) (respond : String → Nat → CallAttempt) :
    Nat → List String → List (Nat × Nat) × Option String
  | _, [] => ([], none)
  | i, u :: rest =>
    match urlParse u with
    | none => ([], some ("invalid webhook URL " ++ u))
    | some g =>
      let r := pollAttempts (endpointHealthy respond g) 0 budget
      let tagged := r.1.map (fun k => (i, k))
      if r.2 then
        let r2 := waitForEndpointsAux budget respond (i + 1) rest
        (tagged ++ r2.1, r2.2)
      else (tagged,
        some ("webhook endpoint " ++ (if g.path = "" then "/" else g.path) ++ " not ready"))

/-- `(*Client).WaitForEndpoints` (client.go lines 190-232). -/
def WaitForEndpoints (budget : Nat) (respond : String → Nat → CallAttempt)
    (urls : List String) : List (Nat × Nat) × Option String :=
  waitForEndpointsAux budget respond 0 urls

/-! ## Theorems -/

/-- The source's path computation agrees with the spec's description of the
effective path. -/
theorem patchPath_eq_specEffectivePath (cc : WebhookClientConfig) :
    patchPath cc = specEffectivePath cc := by
  rcases cc with ⟨url, ca, service⟩
  rcases service with _ | ⟨ns, nm, svcPath⟩ <;>
    [skip; rcases svcPath with _ | p] <;>
    simp only [patchPath, specEffectivePath, patchPathFromURL, Option.bind] <;>
    rcases url with _ | u <;>
    simp <;>
    rcases h : urlParse u with _ | g <;>
    simp [h]

/-- C6: `PatchCRDConversion` replaces the whole `spec.conversion` sub-document
with the webhook conversion block (strategy `Webhook`, review versions
`[v1, v1beta1]`, client config `baseURL + "/convert"` with the CA bundle),
independently of any prior conversion content, and leaves every other field of
the CRD unchanged. -/
theorem patch_crd_conversion_overwrites (crd : CustomResourceDefinition)
    (baseURL caBundle : String) :
    (PatchCRDConversion crd baseURL caBundle).spec.conversion
        = some ⟨WebhookConverter,
                some ⟨["v1", "v1beta1"], some ⟨some (baseURL ++ "/convert"), caBundle⟩⟩⟩
      ∧ (PatchCRDConversion crd baseURL caBundle).name = crd.name
      ∧ (PatchCRDConversion crd baseURL caBundle).spec.group = crd.spec.group
      ∧ (PatchCRDConversion crd baseURL caBundle).spec.names = crd.spec.names
      ∧ ∀ conv : Option CustomResourceConversion,
          PatchCRDConversion { crd with spec := { crd.spec with conversion := conv } }
              baseURL caBundle
            = PatchCRDConversion crd baseURL caBundle :=
  ⟨rfl, rfl, rfl, rfl, fun _ => rfl⟩

/-- C1: after patching, every webhook entry keeps its other fields, its client
config holds exactly the URL `baseURL ++ effectivePath` (effective path: prior
service-reference path, else path component of a prior parseable URL, else
`/`), the provided CA bundle, and no service reference — for both mutating and
validating configurations. -/
theorem patch_webhook_client_config_correct
    (cfg : WebhookConfiguration) (baseURL caBundle : String) (i : Nat)
    (w : WebhookEntry) (h : cfg.webhooks[i]? = some w) :
    (PatchMutatingWebhookConfiguration cfg baseURL caBundle).webhooks[i]?
        = some { w with clientConfig :=
            { url := some (baseURL ++ specEffectivePath w.clientConfig)
              caBundle := caBundle
              service := none } }
      ∧ (PatchValidatingWebhookConfiguration cfg baseURL caBundle).webhooks[i]?
        = some { w with clientConfig :=
            { url := some (baseURL ++ specEffectivePath w.clientConfig)
              caBundle := caBundle
              service := none } }
      ∧ ∀ e ∈ (PatchMutatingWebhookConfiguration cfg baseURL caBundle).webhooks,
          e.clientConfig.url.isSome = true ∧ e.clientConfig.service = none := by
  have hm : (PatchMutatingWebhookConfiguration cfg baseURL caBundle).webhooks
      = cfg.webhooks.map
          (fun e => { e with clientConfig := patchClientConfig e.clientConfig baseURL caBundle }) :=
    rfl
  have hv : (PatchValidatingWebhookConfiguration cfg baseURL caBundle).webhooks
      = cfg.webhooks.map
          (fun e => { e with clientConfig := patchClientConfig e.clientConfig baseURL caBundle }) :=
    rfl
  refine ⟨?_, ?_, ?_⟩
  · rw [hm, List.getElem?_map, h]
    simp [patchClientConfig, patchPath_eq_specEffectivePath]
  · rw [hv, List.getElem?_map, h]
    simp [patchClientConfig, patchPath_eq_specEffectivePath]
  · intro e he
    rw [hm] at he
    simp only [List.mem_map] at he
    obtain ⟨a, _, rfl⟩ := he
    simp [patchClientConfig]

theorem patch_webhook_client_config_correct_witness :
    ((⟨"cfg", [⟨"w", ⟨none, "", some ⟨"ns", "svc", some "/validate"⟩⟩⟩]⟩ :
        WebhookConfiguration).webhooks[0]?
      = some ⟨"w", ⟨none, "", some ⟨"ns", "svc", some "/validate"⟩⟩⟩)
    ∧ ((PatchMutatingWebhookConfiguration
          ⟨"cfg", [⟨"w", ⟨none, "", some ⟨"ns", "svc", some "/validate"⟩⟩⟩]⟩
          "https://host:9443" "Y2FCdW5kbGU=").webhooks[0]?
        = some ⟨"w", ⟨some ("https://host:9443"
            ++ specEffectivePath ⟨none, "", some ⟨"ns", "svc", some "/validate"⟩⟩),
            "Y2FCdW5kbGU=", none⟩⟩
      ∧ (PatchValidatingWebhookConfiguration
          ⟨"cfg", [⟨"w", ⟨none, "", some ⟨"ns", "svc", some "/validate"⟩⟩⟩]⟩
          "https://host:9443" "Y2FCdW5kbGU=").webhooks[0]?
        = some ⟨"w", ⟨some ("https://host:9443"
            ++ specEffectivePath ⟨none, "", some ⟨"ns", "svc", some "/validate"⟩⟩),
            "Y2FCdW5kbGU=", none⟩⟩
      ∧ ∀ e ∈ (PatchMutatingWebhookConfiguration
          ⟨"cfg", [⟨"w", ⟨none, "", some ⟨"ns", "svc", some "/validate"⟩⟩⟩]⟩
          "https://host:9443" "Y2FCdW5kbGU=").webhooks,
          e.clientConfig.url.isSome = true ∧ e.clientConfig.service = none) :=
  ⟨by decide,
   patch_webhook_client_config_correct
     ⟨"cfg", [⟨"w", ⟨none, "", some ⟨"ns", "svc", some "/validate"⟩⟩⟩]⟩
     "https://host:9443" "Y2FCdW5kbGU=" 0
     ⟨"w", ⟨none, "", some ⟨"ns", "svc", some "/validate"⟩⟩⟩ (by decide)⟩

/-- C2 counterexample: with base URL `https://h/x` (a base URL that itself
carries a path) and a service path `/p`, the first patch writes the URL
`https://h/x/p`; the second patch re-extracts the path `/x/p` from it and
writes `https://h/x/x/p`, so applying the webhook patch twice with identical
arguments differs from applying it once. -/
theorem patch_webhook_twice_not_fixed_point :
    PatchMutatingWebhookConfiguration
        (PatchMutatingWebhookConfiguration
          ⟨"cfg", [⟨"w", ⟨none, "", some ⟨"ns", "svc", some "/p"⟩⟩⟩]⟩ "https://h/x" "CB")
        "https://h/x" "CB"
      ≠ PatchMutatingWebhookConfiguration
          ⟨"cfg", [⟨"w", ⟨none, "", some ⟨"ns", "svc", some "/p"⟩⟩⟩]⟩ "https://h/x" "CB" := by
  decide

/-- C2 (amended): the webhook client-config patch is a fixed point on its own
output whenever re-parsing each once-patched URL `baseURL ++ effectivePath`
yields a URL whose path component is exactly that effective path (for example
for a base URL of the form `scheme://host` with no path, query or fragment);
the CRD conversion patch is unconditionally idempotent. -/
theorem patch_idempotent_amended
    (cfg : WebhookConfiguration) (baseURL caBundle : String)
    (h : ∀ e ∈ cfg.webhooks,
        (urlParse (baseURL ++ patchPath e.clientConfig)).map GoURL.path
          = some (patchPath e.clientConfig)) :
    PatchMutatingWebhookConfiguration
        (PatchMutatingWebhookConfiguration cfg baseURL caBundle) baseURL caBundle
      = PatchMutatingWebhookConfiguration cfg baseURL caBundle
    ∧ PatchValidatingWebhookConfiguration
        (PatchValidatingWebhookConfiguration cfg baseURL caBundle) baseURL caBundle
      = PatchValidatingWebhookConfiguration cfg baseURL caBundle
    ∧ ∀ (crd : CustomResourceDefinition) (b c : String),
        PatchCRDConversion (PatchCRDConversion crd b c) b c = PatchCRDConversion crd b c := by
  have key : ∀ e ∈ cfg.webhooks,
      patchClientConfig (patchClientConfig e.clientConfig baseURL caBundle) baseURL caBundle
        = patchClientConfig e.clientConfig baseURL caBundle := by
    intro e he
    have hh := h e he
    show patchClientConfig
        ⟨some (baseURL ++ patchPath e.clientConfig), caBundle, none⟩ baseURL caBundle = _
    rcases hp : urlParse (baseURL ++ patchPath e.clientConfig) with _ | g
    · rw [hp] at hh; simp at hh
    · rw [hp] at hh
      simp only [Option.map_some'] at hh
      have hgp : g.path = patchPath e.clientConfig := by
        injection hh
      have h2 : patchPath ⟨some (baseURL ++ patchPath e.clientConfig), caBundle, none⟩
          = patchPathFromURL (some (baseURL ++ patchPath e.clientConfig)) := rfl
      have h3 : patchPathFromURL (some (baseURL ++ patchPath e.clientConfig)) = g.path := by
        simp [patchPathFromURL, hp]
      show (⟨some (baseURL
            ++ patchPath ⟨some (baseURL ++ patchPath e.clientConfig), caBundle, none⟩),
          caBundle, none⟩ : WebhookClientConfig)
        = ⟨some (baseURL ++ patchPath e.clientConfig), caBundle, none⟩
      rw [h2, h3, hgp]
  have hlist : (cfg.webhooks.map
        (fun e => { e with clientConfig := patchClientConfig e.clientConfig baseURL caBundle })).map
          (fun e => { e with clientConfig := patchClientConfig e.clientConfig baseURL caBundle })
      = cfg.webhooks.map
          (fun e => { e with clientConfig := patchClientConfig e.clientConfig baseURL caBundle }) := by
    rw [List.map_map]
    apply List.map_congr_left
    intro e he
    have := key e he
    simp only [Function.comp]
    exact congrArg (fun cc => WebhookEntry.mk e.name cc) this
  refine ⟨?_, ?_, fun crd b c => rfl⟩
  · show WebhookConfiguration.mk cfg.name _ = WebhookConfiguration.mk cfg.name _
    exact congrArg _ hlist
  · show WebhookConfiguration.mk cfg.name _ = WebhookConfiguration.mk cfg.name _
    exact congrArg _ hlist

theorem patch_idempotent_amended_witness :
    (∀ e ∈ (⟨"cfg", [⟨"w", ⟨none, "", some ⟨"ns", "svc", some "/validate"⟩⟩⟩]⟩ :
        WebhookConfiguration).webhooks,
      (urlParse ("https://host:9443" ++ patchPath e.clientConfig)).map GoURL.path
        = some (patchPath e.clientConfig))
    ∧ (PatchMutatingWebhookConfiguration
          (PatchMutatingWebhookConfiguration
            ⟨"cfg", [⟨"w", ⟨none, "", some ⟨"ns", "svc", some "/validate"⟩⟩⟩]⟩
            "https://host:9443" "CB") "https://host:9443" "CB"
        = PatchMutatingWebhookConfiguration
            ⟨"cfg", [⟨"w", ⟨none, "", some ⟨"ns", "svc", some "/validate"⟩⟩⟩]⟩
            "https://host:9443" "CB"
      ∧ PatchValidatingWebhookConfiguration
          (PatchValidatingWebhookConfiguration
            ⟨"cfg", [⟨"w", ⟨none, "", some ⟨"ns", "svc", some "/validate"⟩⟩⟩]⟩
            "https://host:9443" "CB") "https://host:9443" "CB"
        = PatchValidatingWebhookConfiguration
            ⟨"cfg", [⟨"w", ⟨none, "", some ⟨"ns", "svc", some "/validate"⟩⟩⟩]⟩
            "https://host:9443" "CB"
      ∧ ∀ (crd : CustomResourceDefinition) (b c : String),
          PatchCRDConversion (PatchCRDConversion crd b c) b c = PatchCRDConversion crd b c) :=
  ⟨by decide,
   patch_idempotent_amended
     ⟨"cfg", [⟨"w", ⟨none, "", some ⟨"ns", "svc", some "/validate"⟩⟩⟩]⟩
     "https://host:9443" "CB" (by decide)⟩

/-- On a list of CRDs whose group/kind fields are all non-empty, the filter
returns exactly the sub-list selected by set membership. -/
theorem filterConvertible_ok (convertibles : List GroupKind)
    (crds : List CustomResourceDefinition)
    (hall : ∀ c ∈ crds, c.spec.group ≠ "" ∧ c.spec.names.kind ≠ "") :
    FilterConvertibleCRDs convertibles crds
      = .ok (crds.filter
          (fun c => convertibles.contains ⟨c.spec.group, c.spec.names.kind⟩)) := by
  revert hall
  induction crds with
  | nil => intro _; rfl
  | cons c rest ih =>
    intro hall
    have hc := hall c (List.mem_cons_self c rest)
    have ihr := ih (fun x hx => hall x (List.mem_cons_of_mem c hx))
    simp only [FilterConvertibleCRDs, if_neg hc.1, if_neg hc.2, ihr, List.filter_cons]

/-- A well-formed head propagates any error produced further down the list. -/
theorem filterConvertible_error_prop (convertibles : List GroupKind)
    (p : CustomResourceDefinition) (l : List CustomResourceDefinition) (msg : String)
    (hg : p.spec.group ≠ "") (hk : p.spec.names.kind ≠ "")
    (hl : FilterConvertibleCRDs convertibles l = .error msg) :
    FilterConvertibleCRDs convertibles (p :: l) = .error msg := by
  simp only [FilterConvertibleCRDs, if_neg hg, if_neg hk, hl]

/-- C4: with all group/kind fields present, a CRD appears in the filter result
iff its `(spec.group, spec.names.kind)` is in the resolved convertible set; the
first CRD with an empty `spec.group` or `spec.names.kind` aborts the filter
with an error naming that field and that CRD, never a silent skip. -/
theorem filter_convertible_crds_correct (convertibles : List GroupKind)
    (crds : List CustomResourceDefinition) :
    ((∀ c ∈ crds, c.spec.group ≠ "" ∧ c.spec.names.kind ≠ "") →
      FilterConvertibleCRDs convertibles crds
        = .ok (crds.filter
            (fun c => convertibles.contains ⟨c.spec.group, c.spec.names.kind⟩))
      ∧ ∀ c, c ∈ crds.filter
            (fun c => convertibles.contains ⟨c.spec.group, c.spec.names.kind⟩)
          ↔ c ∈ crds ∧ convertibles.contains ⟨c.spec.group, c.spec.names.kind⟩ = true)
    ∧ (∀ pre c post, crds = pre ++ c :: post →
        (∀ p ∈ pre, p.spec.group ≠ "" ∧ p.spec.names.kind ≠ "") →
        (c.spec.group = "" →
            FilterConvertibleCRDs convertibles crds
              = .error ("CRD " ++ c.name ++ " missing required field: spec.group"))
          ∧ (c.spec.group ≠ "" → c.spec.names.kind = "" →
            FilterConvertibleCRDs convertibles crds
              = .error ("CRD " ++ c.name ++ " missing required field: spec.names.kind"))) := by
  constructor
  · intro hall
    exact ⟨filterConvertible_ok convertibles crds hall, fun c => List.mem_filter⟩
  · intro pre c post hcrds hpre
    subst hcrds
    constructor
    · intro hg
      induction pre with
      | nil =>
        simp [FilterConvertibleCRDs, hg]
      | cons p pre' ih =>
        have hp := hpre p (List.mem_cons_self p pre')
        have := ih (fun x hx => hpre x (List.mem_cons_of_mem p hx))
        exact filterConvertible_error_prop convertibles p _ _ hp.1 hp.2 this
    · intro hg hk
      induction pre with
      | nil =>
        simp [FilterConvertibleCRDs, if_neg hg, hk]
      | cons p pre' ih =>
        have hp := hpre p (List.mem_cons_self p pre')
        have := ih (fun x hx => hpre x (List.mem_cons_of_mem p hx))
        exact filterConvertible_error_prop convertibles p _ _ hp.1 hp.2 this

theorem filter_convertible_crds_correct_witness :
    (FilterConvertibleCRDs [⟨"g", "K"⟩]
        [⟨"a", ⟨"g", ⟨"K"⟩, none⟩⟩, ⟨"b", ⟨"h", ⟨"L"⟩, none⟩⟩]
      = .ok (([⟨"a", ⟨"g", ⟨"K"⟩, none⟩⟩, ⟨"b", ⟨"h", ⟨"L"⟩, none⟩⟩] :
            List CustomResourceDefinition).filter
          (fun c => [(⟨"g", "K"⟩ : GroupKind)].contains ⟨c.spec.group, c.spec.names.kind⟩)))
    ∧ FilterConvertibleCRDs [⟨"g", "K"⟩] [⟨"x", ⟨"", ⟨"K"⟩, none⟩⟩]
      = .error ("CRD " ++ "x" ++ " missing required field: spec.group") :=
  ⟨((filter_convertible_crds_correct [⟨"g", "K"⟩]
      [⟨"a", ⟨"g", ⟨"K"⟩, none⟩⟩, ⟨"b", ⟨"h", ⟨"L"⟩, none⟩⟩]).1 (by decide)).1,
   ((filter_convertible_crds_correct [⟨"g", "K"⟩] [⟨"x", ⟨"", ⟨"K"⟩, none⟩⟩]).2
      [] ⟨"x", ⟨"", ⟨"K"⟩, none⟩⟩ [] rfl (by decide)).1 rfl⟩

/-- C5: `jq.Query[T]` returns the zero value of `T` with no error when the
expression produces no result or a nil result; a non-nil result of the wrong
dynamic type is an error naming the expected and the actual type; a non-nil
result of the right type is returned exactly as produced (no coercion). -/
theorem jq_query_typed_result_correct (target : GoType) (v : GoVal) :
    Query target .noResult = .ok (zeroOf target)
      ∧ Query target (.result .nil) = .ok (zeroOf target)
      ∧ (v ≠ .nil → matchesType v target = false →
          Query target (.result v)
            = .error ("expected type " ++ goTypeName target ++ ", got " ++ goValTypeName v))
      ∧ (v ≠ .nil → matchesType v target = true →
          Query target (.result v) = .ok v) := by
  refine ⟨rfl, rfl, ?_, ?_⟩
  · intro hnil hmatch
    cases v with
    | nil => exact absurd rfl hnil
    | boolean b => simp [Query, hmatch]
    | number n => simp [Query, hmatch]
    | str s => simp [Query, hmatch]
    | arr xs => simp [Query, hmatch]
    | obj fields => simp [Query, hmatch]
  · intro hnil hmatch
    cases v with
    | nil => exact absurd rfl hnil
    | boolean b => simp [Query, hmatch]
    | number n => simp [Query, hmatch]
    | str s => simp [Query, hmatch]
    | arr xs => simp [Query, hmatch]
    | obj fields => simp [Query, hmatch]

theorem jq_query_typed_result_correct_witness :
    ((GoVal.number 3 ≠ GoVal.nil) ∧ matchesType (GoVal.number 3) GoType.tString = false)
    ∧ (Query GoType.tString .noResult = .ok (zeroOf GoType.tString)
      ∧ Query GoType.tString (.result .nil) = .ok (zeroOf GoType.tString)
      ∧ Query GoType.tString (.result (GoVal.number 3))
          = .error ("expected type " ++ goTypeName GoType.tString
              ++ ", got " ++ goValTypeName (GoVal.number 3))) :=
  ⟨⟨(by intro hc; cases hc), rfl⟩,
   (jq_query_typed_result_correct GoType.tString (GoVal.number 3)).1,
   (jq_query_typed_result_correct GoType.tString (GoVal.number 3)).2.1,
   (jq_query_typed_result_correct GoType.tString (GoVal.number 3)).2.2.1
     (by intro hc; cases hc) rfl⟩

/-- C9: `jq.Transform` leaves the object content unchanged whenever it returns
an error or the expression yields no result or nil; the content changes only on
the successful path, where the run produced a map. -/
theorem jq_transform_pure_on_failure (objContent : GoVal) (run : JqOutcome) :
    ((Transform objContent run).2.isSome = true → (Transform objContent run).1 = objContent)
      ∧ (run = .noResult → Transform objContent run = (objContent, none))
      ∧ (run = .result .nil → Transform objContent run = (objContent, none))
      ∧ ((Transform objContent run).1 ≠ objContent →
          ∃ fields, run = .result (.obj fields)
            ∧ Transform objContent run = (.obj fields, none)) := by
  refine ⟨?_, ?_, ?_, ?_⟩
  · intro hsome
    cases run with
    | parseError msg => rfl
    | noResult => rfl
    | runError msg => rfl
    | result v =>
      cases v with
      | nil => rfl
      | boolean b => rfl
      | number n => rfl
      | str s => rfl
      | arr xs => rfl
      | obj fields => simp [Transform] at hsome
  · intro hrun; subst hrun; rfl
  · intro hrun; subst hrun; rfl
  · intro hchanged
    cases run with
    | parseError msg => exact absurd rfl hchanged
    | noResult => exact absurd rfl hchanged
    | runError msg => exact absurd rfl hchanged
    | result v =>
      cases v with
      | nil => exact absurd rfl hchanged
      | boolean b => exact absurd rfl hchanged
      | number n => exact absurd rfl hchanged
      | str s => exact absurd rfl hchanged
      | arr xs => exact absurd rfl hchanged
      | obj fields => exact ⟨fields, rfl, rfl⟩

theorem jq_transform_pure_on_failure_witness :
    ((Transform (GoVal.obj [("spec", GoVal.number 1)])
        (.runError "cannot index")).2.isSome = true)
    ∧ (Transform (GoVal.obj [("spec", GoVal.number 1)]) (.runError "cannot index")).1
        = GoVal.obj [("spec", GoVal.number 1)]
    ∧ Transform (GoVal.obj [("spec", GoVal.number 1)]) .noResult
        = (GoVal.obj [("spec", GoVal.number 1)], none) :=
  ⟨rfl,
   (jq_transform_pure_on_failure (GoVal.obj [("spec", GoVal.number 1)])
      (.runError "cannot index")).1 rfl,
   (jq_transform_pure_on_failure (GoVal.obj [("spec", GoVal.number 1)])
      .noResult).2.1 rfl⟩

/-- When every present non-empty URL parses, extraction succeeds with the
non-empty URLs in entry order. -/
theorem extractURLs_ok (kindLabel cfgName : String)
    (whs : List WebhookEntry)
    (hall : ∀ e ∈ whs, ∀ u, e.clientConfig.url = some u → u ≠ "" →
        (urlParse u).isSome = true) :
    extractURLsFromList kindLabel cfgName whs
      = .ok (whs.filterMap (fun e =>
          match e.clientConfig.url with
          | some u => if u = "" then none else some u
          | none => none)) := by
  revert hall
  induction whs with
  | nil => intro _; rfl
  | cons e rest ih =>
    intro hall
    have ihr := ih (fun x hx => hall x (List.mem_cons_of_mem e hx))
    rcases hu : e.clientConfig.url with _ | u
    · simp [extractURLsFromList, urlFromClientConfig, hu, ihr, List.filterMap_cons]
    · by_cases hne : u = ""
      · subst hne
        simp [extractURLsFromList, urlFromClientConfig, hu, ihr, List.filterMap_cons]
      · have hsome := hall e (List.mem_cons_self e rest) u hu hne
        rcases hp : urlParse u with _ | g
        · rw [hp] at hsome; simp at hsome
        · simp [extractURLsFromList, urlFromClientConfig, hu, hne, hp, ihr,
            List.filterMap_cons]

/-- An extraction error implies some entry holds a non-empty, malformed URL. -/
theorem extractURLs_error (kindLabel cfgName : String)
    (whs : List WebhookEntry) (msg : String)
    (h : extractURLsFromList kindLabel cfgName whs = .error msg) :
    ∃ e ∈ whs, ∃ u, e.clientConfig.url = some u ∧ u ≠ "" ∧ urlParse u = none := by
  by_contra hno
  have hall : ∀ e ∈ whs, ∀ u, e.clientConfig.url = some u → u ≠ "" →
      (urlParse u).isSome = true := by
    intro e he u hu hne
    by_contra hns
    exact hno ⟨e, he, u, hu, hne, Option.not_isSome_iff_eq_none.mp hns⟩
  rw [extractURLs_ok kindLabel cfgName whs hall] at h
  cases h

/-- C10: `ExtractWebhookURLs` skips entries with a nil or empty URL without
error (returning the remaining non-empty URLs in webhook-entry order), and
returns an error only for a non-empty malformed URL or an unsupported object
type. -/
theorem extract_webhook_urls_correct (cfg : WebhookConfiguration) (t : String) :
    ((∀ e ∈ cfg.webhooks, ∀ u, e.clientConfig.url = some u → u ≠ "" →
        (urlParse u).isSome = true) →
      ExtractWebhookURLs (.mutating cfg)
          = .ok (cfg.webhooks.filterMap (fun e =>
              match e.clientConfig.url with
              | some u => if u = "" then none else some u
              | none => none))
        ∧ ExtractWebhookURLs (.validating cfg)
          = .ok (cfg.webhooks.filterMap (fun e =>
              match e.clientConfig.url with
              | some u => if u = "" then none else some u
              | none => none)))
      ∧ (∀ msg, ExtractWebhookURLs (.mutating cfg) = .error msg →
          ∃ e ∈ cfg.webhooks, ∃ u, e.clientConfig.url = some u ∧ u ≠ "" ∧ urlParse u = none)
      ∧ (∀ msg, ExtractWebhookURLs (.validating cfg) = .error msg →
          ∃ e ∈ cfg.webhooks, ∃ u, e.clientConfig.url = some u ∧ u ≠ "" ∧ urlParse u = none)
      ∧ ExtractWebhookURLs (.other t)
          = .error ("unsupported webhook configuration type: " ++ t) := by
  refine ⟨?_, ?_, ?_, rfl⟩
  · intro hall
    exact ⟨extractURLs_ok "mutating" cfg.name cfg.webhooks hall,
           extractURLs_ok "validating" cfg.name cfg.webhooks hall⟩
  · intro msg h
    exact extractURLs_error "mutating" cfg.name cfg.webhooks msg h
  · intro msg h
    exact extractURLs_error "validating" cfg.name cfg.webhooks msg h

theorem extract_webhook_urls_correct_witness :
    (ExtractWebhookURLs (.mutating ⟨"m",
        [⟨"w1", ⟨some "https://h/a", "", none⟩⟩,
         ⟨"w2", ⟨none, "", none⟩⟩,
         ⟨"w3", ⟨some "", "", none⟩⟩,
         ⟨"w4", ⟨some "https://h/b", "", none⟩⟩]⟩)
      = .ok (([⟨"w1", ⟨some "https://h/a", "", none⟩⟩,
         ⟨"w2", ⟨none, "", none⟩⟩,
         ⟨"w3", ⟨some "", "", none⟩⟩,
         ⟨"w4", ⟨some "https://h/b", "", none⟩⟩] : List WebhookEntry).filterMap
          (fun e =>
            match e.clientConfig.url with
            | some u => if u = "" then none else some u
            | none => none)))
    ∧ ∃ e ∈ ([⟨"w1", ⟨some "://x", "", none⟩⟩] : List WebhookEntry),
        ∃ u, e.clientConfig.url = some u ∧ u ≠ "" ∧ urlParse u = none :=
  ⟨((extract_webhook_urls_correct ⟨"m",
      [⟨"w1", ⟨some "https://h/a", "", none⟩⟩,
       ⟨"w2", ⟨none, "", none⟩⟩,
       ⟨"w3", ⟨some "", "", none⟩⟩,
       ⟨"w4", ⟨some "https://h/b", "", none⟩⟩]⟩ "*v1.Pod").1 (by decide)).1,
   (extract_webhook_urls_correct ⟨"w", [⟨"w1", ⟨some "://x", "", none⟩⟩]⟩ "*v1.Pod").2.1
     "invalid URL in mutating webhook w: failed to parse URL" (by decide)⟩

theorem string_data_append (s t : String) : (s ++ t).data = s.data ++ t.data := by
  cases s; cases t; rfl

theorem string_ne_of_take_ne (s t : String) (n : Nat)
    (h : s.data.take n ≠ t.data.take n) : s ≠ t := by
  intro hc; exact h (by rw [hc])

/-- Two strings with different prefixes differ regardless of suffixes. -/
theorem string_prefix_ne (p q x y : String) (n : Nat)
    (hp : n ≤ p.data.length) (hq : n ≤ q.data.length)
    (hne : p.data.take n ≠ q.data.take n) : p ++ x ≠ q ++ y := by
  apply string_ne_of_take_ne _ _ n
  rw [string_data_append, string_data_append,
      List.take_append_eq_append_take, List.take_append_eq_append_take,
      Nat.sub_eq_zero_of_le hp, Nat.sub_eq_zero_of_le hq]
  simpa using hne

theorem string_append_ne_of_ne (a : String) {x y : String} (h : x ≠ y) :
    a ++ x ≠ a ++ y := by
  intro hc
  apply h
  have hd := congrArg String.data hc
  rw [string_data_append, string_data_append] at hd
  have hxy := List.append_cancel_left hd
  cases x; cases y
  exact congrArg String.mk hxy

/-- The six external calls of a successful issuance are pairwise distinct: no
operation is retried. -/
theorem cert_success_trace_nodup (path : String) (validity : Nat) (sans : List String) :
    ([CertAction.mkdirAll path,
      .selfSignedFromRequest ⟨"ca", "k3senv-ca", validity, true, false, path⟩,
      .selfSignedFromRequest ⟨"tls", commaJoin sans, validity, false, true, path⟩,
      .readFileAct (filepathJoin path CACertFileName),
      .readFileAct (filepathJoin path CertFileName),
      .readFileAct (filepathJoin path KeyFileName)] : List CertAction).Nodup := by
  have h12 : filepathJoin path CACertFileName ≠ filepathJoin path CertFileName :=
    string_append_ne_of_ne (path ++ "/") (by decide)
  have h13 : filepathJoin path CACertFileName ≠ filepathJoin path KeyFileName :=
    string_append_ne_of_ne (path ++ "/") (by decide)
  have h23 : filepathJoin path CertFileName ≠ filepathJoin path KeyFileName :=
    string_append_ne_of_ne (path ++ "/") (by decide)
  simp [List.nodup_cons, h12, h13, h23]

/-- A string with a known prefix never equals a fixed string differing within
that prefix. -/
theorem string_appended_ne_const (p x q : String) (n : Nat)
    (hp : n ≤ p.data.length)
    (hne : p.data.take n ≠ q.data.take n) : p ++ x ≠ q := by
  apply string_ne_of_take_ne _ _ n
  rw [string_data_append, List.take_append_eq_append_take, Nat.sub_eq_zero_of_le hp]
  simpa using hne

/-- C8: `cert.New` creates the target directory, issues a self-signed CA
request (`IsCA`, host `k3senv-ca`) and a CA-signed leaf request covering every
SAN (host is the comma-join of the SAN list) for the given validity, then reads
the three PEM artifacts back; directory-creation failure, generation failure
(either certificate nil) and each read-back failure produce distinct errors and
abort immediately, no call is retried, and `CABundle` of the issued data is the
base64 encoding of the CA certificate bytes. -/
theorem cert_new_failure_modes_and_bundle (w : CertWorld) (path : String)
    (validity : Nat) (sans : List String) :
    (∀ e, w.mkdirError = some e →
        certNew w path validity sans
          = ([.mkdirAll path], .error ("failed to create cert directory: " ++ e)))
      ∧ (w.mkdirError = none → (w.caCertOK = false ∨ w.serverCertOK = false) →
          certNew w path validity sans
            = ([.mkdirAll path,
                .selfSignedFromRequest ⟨"ca", "k3senv-ca", validity, true, false, path⟩,
                .selfSignedFromRequest ⟨"tls", commaJoin sans, validity, false, true, path⟩],
               .error "failed to generate certificates"))
      ∧ (w.mkdirError = none → w.caCertOK = true → w.serverCertOK = true →
          ∀ e, w.fileContents (filepathJoin path CACertFileName) = .error e →
          certNew w path validity sans
            = ([.mkdirAll path,
                .selfSignedFromRequest ⟨"ca", "k3senv-ca", validity, true, false, path⟩,
                .selfSignedFromRequest ⟨"tls", commaJoin sans, validity, false, true, path⟩,
                .readFileAct (filepathJoin path CACertFileName)],
               .error ("failed to read CA cert: " ++ ("failed to read file "
                 ++ filepathJoin path CACertFileName ++ ": " ++ e))))
      ∧ (w.mkdirError = none → w.caCertOK = true → w.serverCertOK = true →
          ∀ b1 e, w.fileContents (filepathJoin path CACertFileName) = .ok b1 →
          w.fileContents (filepathJoin path CertFileName) = .error e →
          certNew w path validity sans
            = ([.mkdirAll path,
                .selfSignedFromRequest ⟨"ca", "k3senv-ca", validity, true, false, path⟩,
                .selfSignedFromRequest ⟨"tls", commaJoin sans, validity, false, true, path⟩,
                .readFileAct (filepathJoin path CACertFileName),
                .readFileAct (filepathJoin path CertFileName)],
               .error ("failed to read server cert: " ++ ("failed to read file "
                 ++ filepathJoin path CertFileName ++ ": " ++ e))))
      ∧ (w.mkdirError = none → w.caCertOK = true → w.serverCertOK = true →
          ∀ b1 b2 e, w.fileContents (filepathJoin path CACertFileName) = .ok b1 →
          w.fileContents (filepathJoin path CertFileName) = .ok b2 →
          w.fileContents (filepathJoin path KeyFileName) = .error e →
          certNew w path validity sans
            = ([.mkdirAll path,
                .selfSignedFromRequest ⟨"ca", "k3senv-ca", validity, true, false, path⟩,
                .selfSignedFromRequest ⟨"tls", commaJoin sans, validity, false, true, path⟩,
                .readFileAct (filepathJoin path CACertFileName),
                .readFileAct (filepathJoin path CertFileName),
                .readFileAct (filepathJoin path KeyFileName)],
               .error ("failed to read server key: " ++ ("failed to read file "
                 ++ filepathJoin path KeyFileName ++ ": " ++ e))))
      ∧ (w.mkdirError = none → w.caCertOK = true → w.serverCertOK = true →
          ∀ b1 b2 b3, w.fileContents (filepathJoin path CACertFileName) = .ok b1 →
          w.fileContents (filepathJoin path CertFileName) = .ok b2 →
          w.fileContents (filepathJoin path KeyFileName) = .ok b3 →
          certNew w path validity sans
            = ([.mkdirAll path,
                .selfSignedFromRequest ⟨"ca", "k3senv-ca", validity, true, false, path⟩,
                .selfSignedFromRequest ⟨"tls", commaJoin sans, validity, false, true, path⟩,
                .readFileAct (filepathJoin path CACertFileName),
                .readFileAct (filepathJoin path CertFileName),
                .readFileAct (filepathJoin path KeyFileName)],
               .ok ⟨b1, b2, b3⟩)
            ∧ CABundle ⟨b1, b2, b3⟩ = base64Encode b1
            ∧ ([CertAction.mkdirAll path,
                .selfSignedFromRequest ⟨"ca", "k3senv-ca", validity, true, false, path⟩,
                .selfSignedFromRequest ⟨"tls", commaJoin sans, validity, false, true, path⟩,
                .readFileAct (filepathJoin path CACertFileName),
                .readFileAct (filepathJoin path CertFileName),
                .readFileAct (filepathJoin path KeyFileName)] : List CertAction).Nodup)
      ∧ (∀ e1 e3 e4 e5 : String,
          ("failed to create cert directory: " ++ e1) ≠ "failed to generate certificates"
          ∧ ("failed to create cert directory: " ++ e1) ≠ ("failed to read CA cert: " ++ e3)
          ∧ ("failed to create cert directory: " ++ e1) ≠ ("failed to read server cert: " ++ e4)
          ∧ ("failed to create cert directory: " ++ e1) ≠ ("failed to read server key: " ++ e5)
          ∧ "failed to generate certificates" ≠ ("failed to read CA cert: " ++ e3)
          ∧ "failed to generate certificates" ≠ ("failed to read server cert: " ++ e4)
          ∧ "failed to generate certificates" ≠ ("failed to read server key: " ++ e5)
          ∧ ("failed to read CA cert: " ++ e3) ≠ ("failed to read server cert: " ++ e4)
          ∧ ("failed to read CA cert: " ++ e3) ≠ ("failed to read server key: " ++ e5)
          ∧ ("failed to read server cert: " ++ e4) ≠ ("failed to read server key: " ++ e5)) := by
  refine ⟨?_, ?_, ?_, ?_, ?_, ?_, ?_⟩
  · intro e hmk
    simp [certNew, hmk]
  · intro hmk hgen
    rcases hgen with hg | hg <;> simp [certNew, hmk, hg]
  · intro hmk hca hsv e hf
    simp [certNew, hmk, hca, hsv, readFilePEM, hf]
  · intro hmk hca hsv b1 e h1 hf
    simp [certNew, hmk, hca, hsv, readFilePEM, h1, hf]
  · intro hmk hca hsv b1 b2 e h1 h2 hf
    simp [certNew, hmk, hca, hsv, readFilePEM, h1, h2, hf]
  · intro hmk hca hsv b1 b2 b3 h1 h2 h3
    refine ⟨?_, rfl, cert_success_trace_nodup path validity sans⟩
    simp [certNew, hmk, hca, hsv, readFilePEM, h1, h2, h3]
  · intro e1 e3 e4 e5
    refine ⟨string_appended_ne_const _ _ _ 23 (by decide) (by decide),
            string_prefix_ne _ _ _ _ 23 (by decide) (by decide) (by decide),
            string_prefix_ne _ _ _ _ 23 (by decide) (by decide) (by decide),
            string_prefix_ne _ _ _ _ 23 (by decide) (by decide) (by decide),
            Ne.symm (string_appended_ne_const _ _ _ 23 (by decide) (by decide)),
            Ne.symm (string_appended_ne_const _ _ _ 23 (by decide) (by decide)),
            Ne.symm (string_appended_ne_const _ _ _ 23 (by decide) (by decide)),
            string_prefix_ne _ _ _ _ 23 (by decide) (by decide) (by decide),
            string_prefix_ne _ _ _ _ 23 (by decide) (by decide) (by decide),
            string_prefix_ne _ _ _ _ 23 (by decide) (by decide) (by decide)⟩

theorem cert_new_failure_modes_and_bundle_witness :
    certNew ⟨some "permission denied", true, true, fun _ => .error "x"⟩
        "certdir" 100 ["localhost", "127.0.0.1"]
      = ([.mkdirAll "certdir"],
         .error ("failed to create cert directory: " ++ "permission denied"))
    ∧ (certNew ⟨none, true, true, fun p =>
          if p = "certdir/cert-ca.pem" then .ok [77, 97, 110]
          else if p = "certdir/cert-tls.pem" then .ok [1]
          else if p = "certdir/key-tls.pem" then .ok [2]
          else .error "no such file"⟩ "certdir" 100 ["localhost", "127.0.0.1"]
        = ([.mkdirAll "certdir",
            .selfSignedFromRequest ⟨"ca", "k3senv-ca", 100, true, false, "certdir"⟩,
            .selfSignedFromRequest
              ⟨"tls", commaJoin ["localhost", "127.0.0.1"], 100, false, true, "certdir"⟩,
            .readFileAct (filepathJoin "certdir" CACertFileName),
            .readFileAct (filepathJoin "certdir" CertFileName),
            .readFileAct (filepathJoin "certdir" KeyFileName)],
           .ok ⟨[77, 97, 110], [1], [2]⟩)
      ∧ CABundle ⟨[77, 97, 110], [1], [2]⟩ = base64Encode [77, 97, 110]
      ∧ ([CertAction.mkdirAll "certdir",
          .selfSignedFromRequest ⟨"ca", "k3senv-ca", 100, true, false, "certdir"⟩,
          .selfSignedFromRequest
            ⟨"tls", commaJoin ["localhost", "127.0.0.1"], 100, false, true, "certdir"⟩,
          .readFileAct (filepathJoin "certdir" CACertFileName),
          .readFileAct (filepathJoin "certdir" CertFileName),
          .readFileAct (filepathJoin "certdir" KeyFileName)] : List CertAction).Nodup) :=
  ⟨(cert_new_failure_modes_and_bundle
      ⟨some "permission denied", true, true, fun _ => .error "x"⟩
      "certdir" 100 ["localhost", "127.0.0.1"]).1 "permission denied" rfl,
   (cert_new_failure_modes_and_bundle
      ⟨none, true, true, fun p =>
        if p = "certdir/cert-ca.pem" then .ok [77, 97, 110]
        else if p = "certdir/cert-tls.pem" then .ok [1]
        else if p = "certdir/key-tls.pem" then .ok [2]
        else .error "no such file"⟩
      "certdir" 100 ["localhost", "127.0.0.1"]).2.2.2.2.2.1 rfl rfl rfl
     [77, 97, 110] [1] [2] (by decide) (by decide) (by decide)⟩

/-- C3 counterexample: a response with a 4xx status whose body does not
unmarshal as an `AdmissionReview` is an error for `Call` (client.go lines
164-172), so the `WaitForEndpoints` poller does not classify the endpoint
healthy on this 4xx response. -/
theorem poller_4xx_unparseable_body_not_healthy :
    (400 ≤ 404 ∧ 404 < 500) ∧ callSucceeds (.response 404 false) = false := by
  decide

/-- Every recorded attempt index lies in the polling window. -/
theorem pollAttempts_mem (healthy : Nat → Bool) (fuel : Nat) :
    ∀ start k, k ∈ (pollAttempts healthy start fuel).1 → start ≤ k ∧ k < start + fuel := by
  induction fuel with
  | zero => intro start k h; simp [pollAttempts] at h
  | succ n ih =>
    intro start k h
    by_cases hh : healthy start = true
    · simp [pollAttempts, hh] at h
      subst h; omega
    · simp [pollAttempts, hh] at h
      rcases h with rfl | h
      · omega
      · have := ih (start + 1) k h
        omega

/-- A successful poll stops at the first healthy attempt: the trace is the
contiguous window up to the first index that is healthy, every earlier attempt
having failed. -/
theorem pollAttempts_success (healthy : Nat → Bool) (fuel : Nat) :
    ∀ start, (pollAttempts healthy start fuel).2 = true →
      ∃ m, start ≤ m ∧ m < start + fuel
        ∧ (pollAttempts healthy start fuel).1 = List.range' start (m - start + 1)
        ∧ healthy m = true ∧ ∀ j, start ≤ j → j < m → healthy j = false := by
  induction fuel with
  | zero => intro start h; simp [pollAttempts] at h
  | succ n ih =>
    intro start h
    by_cases hh : healthy start = true
    · refine ⟨start, le_refl _, by omega, ?_, hh, fun j hj1 hj2 => by omega⟩
      simp [pollAttempts, hh, List.range']
    · simp only [pollAttempts, if_neg hh] at h
      obtain ⟨m, hm1, hm2, htr, hhm, hprev⟩ := ih (start + 1) h
      refine ⟨m, by omega, by omega, ?_, hhm, ?_⟩
      · simp only [pollAttempts, if_neg hh]
        have hs : m - start + 1 = (m - (start + 1) + 1) + 1 := by omega
        rw [hs, List.range'_succ]
        simp [htr]
      · intro j hj1 hj2
        rcases Nat.eq_or_lt_of_le hj1 with rfl | hgt
        · exact Bool.not_eq_true _ ▸ eq_false_of_ne_true hh
        · exact hprev j hgt hj2

/-- If every attempt in the window fails, the poll times out after issuing
every attempt in the window. -/
theorem pollAttempts_failure (healthy : Nat → Bool) (fuel : Nat) :
    ∀ start, (∀ j, start ≤ j → j < start + fuel → healthy j = false) →
      (pollAttempts healthy start fuel).2 = false
        ∧ (pollAttempts healthy start fuel).1 = List.range' start fuel := by
  induction fuel with
  | zero => intro start _; simp [pollAttempts]
  | succ n ih =>
    intro start hall
    have hh : healthy start = false := hall start (le_refl _) (by omega)
    have hr := ih (start + 1) (fun j h1 h2 => hall j (by omega) (by omega))
    simp [pollAttempts, hh, hr.1, hr.2, List.range'_succ]

/-- C3 (amended): in the `Client.Call`-based poller a call is healthy iff a
response arrived with status below 500 and a body that unmarshals as an
`AdmissionReview`; in the status-only k3senv endpoint check a call is healthy
iff a response arrived with status below 500.  A 5xx response or a transport
failure is never healthy; polling stops exactly at the first healthy attempt
and, while attempts keep failing, retries once per poll tick until the budget
is exhausted. -/
theorem poller_classification_amended (outcomes : Nat → CallAttempt)
    (budget status : Nat) (bodyOK : Bool) :
    (callSucceeds (.response status bodyOK) = true ↔ status < 500 ∧ bodyOK = true)
      ∧ callSucceeds .transportError = false
      ∧ (checkWebhookEndpointHealthy (.response status bodyOK) = true ↔ status < 500)
      ∧ checkWebhookEndpointHealthy .transportError = false
      ∧ (500 ≤ status → callSucceeds (.response status bodyOK) = false
          ∧ checkWebhookEndpointHealthy (.response status bodyOK) = false)
      ∧ ((pollAttempts (fun j => callSucceeds (outcomes j)) 0 budget).2 = true →
          ∃ m, m < budget
            ∧ (pollAttempts (fun j => callSucceeds (outcomes j)) 0 budget).1
                = List.range' 0 (m + 1)
            ∧ callSucceeds (outcomes m) = true
            ∧ ∀ j < m, callSucceeds (outcomes j) = false)
      ∧ ((∀ j < budget, callSucceeds (outcomes j) = false) →
          (pollAttempts (fun j => callSucceeds (outcomes j)) 0 budget).2 = false
            ∧ (pollAttempts (fun j => callSucceeds (outcomes j)) 0 budget).1
                = List.range' 0 budget) := by
  refine ⟨?_, rfl, ?_, rfl, ?_, ?_, ?_⟩
  · simp [callSucceeds]
  · simp [checkWebhookEndpointHealthy]
  · intro h5
    constructor
    · simp [callSucceeds]; omega
    · simp [checkWebhookEndpointHealthy]; omega
  · intro h
    obtain ⟨m, _, hm2, htr, hhm, hprev⟩ :=
      pollAttempts_success (fun j => callSucceeds (outcomes j)) budget 0 h
    exact ⟨m, by omega, by simpa using htr, hhm, fun j hj => hprev j (Nat.zero_le j) hj⟩
  · intro hall
    exact pollAttempts_failure (fun j => callSucceeds (outcomes j)) budget 0
      (fun j _ hj => hall j (by omega))

theorem poller_classification_amended_witness :
    (callSucceeds (.response 503 true) = false
      ∧ checkWebhookEndpointHealthy (.response 503 true) = false)
    ∧ (pollAttempts (fun j => callSucceeds
          ((fun _ => CallAttempt.response 500 true) j)) 0 5).2 = false :=
  ⟨(poller_classification_amended (fun _ => CallAttempt.response 500 true) 5 503
      true).2.2.2.2.1 (by decide),
   ((poller_classification_amended (fun _ => CallAttempt.response 500 true) 5 503
      true).2.2.2.2.2.2 (by decide)).1⟩

theorem pairwise_trivial {α : Type} {R : α → α → Prop} (h : ∀ a b, R a b) :
    ∀ l : List α, l.Pairwise R
  | [] => List.Pairwise.nil
  | a :: l => List.Pairwise.cons (fun b _ => h a b) (pairwise_trivial h l)

/-- Every health-check call recorded by the waiting loop belongs to an endpoint
at or after the starting index, within the URL list, with an attempt number
inside the per-endpoint budget. -/
theorem waitAux_mem_bounds (budget : Nat) (respond : String → Nat → CallAttempt) :
    ∀ (urls : List String) (i : Nat) (p : Nat × Nat),
      p ∈ (waitForEndpointsAux budget respond i urls).1 →
        i ≤ p.1 ∧ p.1 < i + urls.length ∧ p.2 < budget := by
  intro urls
  induction urls with
  | nil => intro i p h; simp [waitForEndpointsAux] at h
  | cons u rest ih =>
    intro i p h
    rcases hparse : urlParse u with _ | g
    · simp [waitForEndpointsAux, hparse] at h
    · by_cases hs : (pollAttempts (endpointHealthy respond g) 0 budget).2 = true
      · simp only [waitForEndpointsAux, hparse, hs, if_true, List.mem_append] at h
        rcases h with hin | hin
        · obtain ⟨k, hk, rfl⟩ := List.mem_map.mp hin
          have hb := pollAttempts_mem (endpointHealthy respond g) budget 0 k hk
          simp only [List.length_cons]
          omega
        · have hb := ih (i + 1) p hin
          simp only [List.length_cons]
          omega
      · simp only [waitForEndpointsAux, hparse, if_neg hs] at h
        obtain ⟨k, hk, rfl⟩ := List.mem_map.mp h
        have hb := pollAttempts_mem (endpointHealthy respond g) budget 0 k hk
        simp only [List.length_cons]
        omega

/-- The recorded trace is ordered by endpoint index: the loop finishes one URL
before touching the next. -/
theorem waitAux_pairwise (budget : Nat) (respond : String → Nat → CallAttempt) :
    ∀ (urls : List String) (i : Nat),
      List.Pairwise (fun p q : Nat × Nat => p.1 ≤ q.1)
        (waitForEndpointsAux budget respond i urls).1 := by
  intro urls
  induction urls with
  | nil => intro i; simp [waitForEndpointsAux]
  | cons u rest ih =>
    intro i
    rcases hparse : urlParse u with _ | g
    · simp [waitForEndpointsAux, hparse]
    · by_cases hs : (pollAttempts (endpointHealthy respond g) 0 budget).2 = true
      · simp only [waitForEndpointsAux, hparse, hs, if_true]
        rw [List.pairwise_append]
        refine ⟨?_, ih (i + 1), ?_⟩
        · rw [List.pairwise_map]
          exact pairwise_trivial (fun a b => le_refl i) _
        · intro p hp q hq
          obtain ⟨k, hk, rfl⟩ := List.mem_map.mp hp
          have hb := waitAux_mem_bounds budget respond rest (i + 1) q hq
          omega
      · simp only [waitForEndpointsAux, hparse, if_neg hs]
        rw [List.pairwise_map]
        exact pairwise_trivial (fun a b => le_refl i) _

/-- If any call to endpoint `j` is recorded, every earlier endpoint's URL
parsed and its standalone full-budget poll succeeded. -/
theorem waitAux_earlier_success (budget : Nat) (respond : String → Nat → CallAttempt) :
    ∀ (urls : List String) (i j a : Nat),
      (j, a) ∈ (waitForEndpointsAux budget respond i urls).1 →
      ∀ h, i ≤ h → h < j →
        ∃ u g, urls[h - i]? = some u ∧ urlParse u = some g
          ∧ (pollAttempts (endpointHealthy respond g) 0 budget).2 = true := by
  intro urls
  induction urls with
  | nil => intro i j a hmem; simp [waitForEndpointsAux] at hmem
  | cons u rest ih =>
    intro i j a hmem h hih hj
    rcases hparse : urlParse u with _ | g
    · simp [waitForEndpointsAux, hparse] at hmem
    · by_cases hs : (pollAttempts (endpointHealthy respond g) 0 budget).2 = true
      · simp only [waitForEndpointsAux, hparse, hs, if_true, List.mem_append] at hmem
        rcases hmem with hin | hin
        · obtain ⟨k, hk, hpair⟩ := List.mem_map.mp hin
          have : i = j := congrArg Prod.fst hpair
          omega
        · rcases Nat.eq_or_lt_of_le hih with rfl | hgt
          · refine ⟨u, g, ?_, hparse, hs⟩
            simp
          · obtain ⟨u', g', hu', hg', hs'⟩ := ih (i + 1) j a hin h hgt hj
            refine ⟨u', g', ?_, hg', hs'⟩
            have hsub : h - i = (h - (i + 1)) + 1 := by omega
            rw [hsub, List.getElem?_cons_succ]
            exact hu'
      · simp only [waitForEndpointsAux, hparse, if_neg hs] at hmem
        obtain ⟨k, hk, hpair⟩ := List.mem_map.mp hmem
        have : i = j := congrArg Prod.fst hpair
        omega

/-- When endpoint `j` is reached at all, exactly the attempts of its standalone
poll with the full, fresh budget are recorded for it — independently of how
many attempts earlier endpoints consumed. -/
theorem waitAux_full_budget (budget : Nat) (respond : String → Nat → CallAttempt) :
    ∀ (urls : List String) (i j : Nat) (u : String) (g : GoURL),
      i ≤ j → urls[j - i]? = some u → urlParse u = some g →
      (∃ a, (j, a) ∈ (waitForEndpointsAux budget respond i urls).1) →
      ∀ k, ((j, k) ∈ (waitForEndpointsAux budget respond i urls).1
        ↔ k ∈ (pollAttempts (endpointHealthy respond g) 0 budget).1) := by
  intro urls
  induction urls with
  | nil => intro i j u g hij hget; simp at hget
  | cons u' rest ih =>
    intro i j u g hij hget hparse hex k
    rcases Nat.eq_or_lt_of_le hij with rfl | hgt
    · -- the first endpoint of the remaining list
      have hu : u' = u := by
        simpa using hget
      subst hu
      rcases hparse' : urlParse u' with _ | g'
      · rw [hparse'] at hparse; cases hparse
      · have hg : g' = g := by
          rw [hparse'] at hparse; injection hparse
        subst hg
        by_cases hs : (pollAttempts (endpointHealthy respond g') 0 budget).2 = true
        · simp only [waitForEndpointsAux, hparse', hs, if_true, List.mem_append]
          constructor
          · intro hmem
            rcases hmem with hin | hin
            · obtain ⟨k', hk', hpair⟩ := List.mem_map.mp hin
              have h1 : k' = k := congrArg Prod.snd hpair
              subst h1
              exact hk'
            · have hb := waitAux_mem_bounds budget respond rest (i + 1) (i, k) hin
              omega
          · intro hk
            exact Or.inl (List.mem_map.mpr ⟨k, hk, rfl⟩)
        · simp only [waitForEndpointsAux, hparse', if_neg hs]
          constructor
          · intro hin
            obtain ⟨k', hk', hpair⟩ := List.mem_map.mp hin
            have h1 : k' = k := congrArg Prod.snd hpair
            subst h1
            exact hk'
          · intro hk
            exact List.mem_map.mpr ⟨k, hk, rfl⟩
    · -- a later endpoint
      have hsub : j - i = (j - (i + 1)) + 1 := by omega
      rw [hsub, List.getElem?_cons_succ] at hget
      rcases hparse' : urlParse u' with _ | g'
      · obtain ⟨a, ha⟩ := hex
        simp [waitForEndpointsAux, hparse'] at ha
      · by_cases hs : (pollAttempts (endpointHealthy respond g') 0 budget).2 = true
        · have hexr : ∃ a, (j, a) ∈ (waitForEndpointsAux budget respond (i + 1) rest).1 := by
            obtain ⟨a, ha⟩ := hex
            simp only [waitForEndpointsAux, hparse', hs, if_true, List.mem_append] at ha
            rcases ha with hin | hin
            · obtain ⟨k', hk', hpair⟩ := List.mem_map.mp hin
              have : i = j := congrArg Prod.fst hpair
              omega
            · exact ⟨a, hin⟩
          have hiff := ih (i + 1) j u g (by omega) hget hparse hexr k
          simp only [waitForEndpointsAux, hparse', hs, if_true, List.mem_append]
          constructor
          · intro hmem
            rcases hmem with hin | hin
            · obtain ⟨k', hk', hpair⟩ := List.mem_map.mp hin
              have : i = j := congrArg Prod.fst hpair
              omega
            · exact hiff.mp hin
          · intro hk
            exact Or.inr (hiff.mpr hk)
        · obtain ⟨a, ha⟩ := hex
          simp only [waitForEndpointsAux, hparse', if_neg hs] at ha
          obtain ⟨k', hk', hpair⟩ := List.mem_map.mp ha
          have : i = j := congrArg Prod.fst hpair
          omega

/-- C7: `WaitForEndpoints` processes the URLs strictly in the order given (the
trace of issued health checks is sorted by endpoint index), an endpoint is
polled only after every earlier endpoint's poll succeeded, every attempt number
stays below the per-endpoint budget, and each reached endpoint is polled
exactly as its standalone poll with the full fresh budget — the ready-timeout
budget is per endpoint, not cumulative. -/
theorem wait_for_endpoints_sequential_budget (budget : Nat)
    (respond : String → Nat → CallAttempt) (urls : List String) :
    (∀ p ∈ (WaitForEndpoints budget respond urls).1,
        p.1 < urls.length ∧ p.2 < budget)
      ∧ List.Pairwise (fun p q : Nat × Nat => p.1 ≤ q.1)
          (WaitForEndpoints budget respond urls).1
      ∧ (∀ j a, (j, a) ∈ (WaitForEndpoints budget respond urls).1 →
          ∀ h < j, ∃ u g, urls[h]? = some u ∧ urlParse u = some g
            ∧ (pollAttempts (endpointHealthy respond g) 0 budget).2 = true)
      ∧ (∀ j u g, urls[j]? = some u → urlParse u = some g →
          (∃ a, (j, a) ∈ (WaitForEndpoints budget respond urls).1) →
          ∀ k, ((j, k) ∈ (WaitForEndpoints budget respond urls).1
            ↔ k ∈ (pollAttempts (endpointHealthy respond g) 0 budget).1)) := by
  refine ⟨?_, waitAux_pairwise budget respond urls 0, ?_, ?_⟩
  · intro p hp
    have hb := waitAux_mem_bounds budget respond urls 0 p hp
    omega
  · intro j a hmem h hj
    have := waitAux_earlier_success budget respond urls 0 j a hmem h (Nat.zero_le h) hj
    simpa using this
  · intro j u g hget hparse hex k
    exact waitAux_full_budget budget respond urls 0 j u g (Nat.zero_le j)
      (by simpa using hget) hparse hex k

theorem wait_for_endpoints_sequential_budget_witness :
    List.Pairwise (fun p q : Nat × Nat => p.1 ≤ q.1)
      (WaitForEndpoints 3
        (fun path k => if path = "/a" ∧ k = 0
          then CallAttempt.response 500 true else .response 200 true)
        ["https://h/a", "https://h/b"]).1
    ∧ ((1, 0) ∈ (WaitForEndpoints 3
          (fun path k => if path = "/a" ∧ k = 0
            then CallAttempt.response 500 true else .response 200 true)
          ["https://h/a", "https://h/b"]).1
        ↔ 0 ∈ (pollAttempts (endpointHealthy
            (fun path k => if path = "/a" ∧ k = 0
              then CallAttempt.response 500 true else .response 200 true)
            ⟨"https", "/b"⟩) 0 3).1) :=
  ⟨(wait_for_endpoints_sequential_budget 3
      (fun path k => if path = "/a" ∧ k = 0
        then CallAttempt.response 500 true else .response 200 true)
      ["https://h/a", "https://h/b"]).2.1,
   (wait_for_endpoints_sequential_budget 3
      (fun path k => if path = "/a" ∧ k = 0
        then CallAttempt.response 500 true else .response 200 true)
      ["https://h/a", "https://h/b"]).2.2.2 1 "https://h/b" ⟨"https", "/b"⟩
     (by decide) (by decide) ⟨0, by decide⟩ 0⟩
